import Mathlib

/-!
Shallow embedding of the NFT purchase-notification bot (src/main.py):
the transaction data model, the purchase extractor `parse_nft_purchases`,
the watermark corruption guard `reset_state_if_outdated`, one iteration of
the polling loop `nft_polling_loop`, the ledger fetch `fetch_transactions`,
and the startup configuration checks of `main` / `__main__`.

Ledger positions (logical times, `lt`) are natural numbers.  Raw message
values are kept as the decimal strings the indexer returns, parsed with a
model of Python `int()` (`parseIntPy`) so that the behaviour of the extractor on
malformed values is visible: Python `int()` raises on a non-numeric string,
which the embedding renders as `Except.error`.
-/

namespace NFTBot

/-- One outbound message of a transaction: `out_msg.get("destination", "")`
is modelled by a plain string, with a missing destination rendered as `""`. -/
structure OutMsg where
  destination : String
deriving Repr, DecidableEq

/-- The inbound message of a transaction.  `source` models
`in_msg.get("source", "")` (missing source is `""`); `value` models the raw
string under `"value"`, with `none` for a missing field (the code then uses
the default `"0"`). -/
structure InMsg where
  source : String
  value : Option String
deriving Repr, DecidableEq

/-- A ledger transaction as the polling code reads it: logical time `lt`
(from `transaction_id.lt`, `0` when missing), unix time `utime`, an optional
inbound message (`tx.get("in_msg", \x7b\x7d)` gives the defaults when absent)
and a list of outbound messages. -/
structure Tx where
  lt : Nat
  utime : Nat
  in_msg : Option InMsg
  out_msgs : List OutMsg
deriving Repr, DecidableEq

/-- A purchase record as built by `parse_nft_purchases`:
`\x7blt, timestamp, nft_address, buyer, price_nanoton\x7d`. -/
structure Purchase where
  lt : Nat
  timestamp : Nat
  nft_address : String
  buyer : String
  price_nanoton : Int
deriving Repr, DecidableEq

/-- Value of a run of decimal digits, most significant first. -/
def digitsToNat (l : List Char) : Nat :=
  l.foldl (fun acc ch => acc * 10 + (ch.toNat - 48)) 0

/-- Model of Python `int(s)` on the strings this program meets: an optional
sign followed by one or more decimal digits parses to its value, anything
else raises (`none`).  (Python also strips whitespace and allows `_`
separators; those inputs do not occur here.) -/
def parseIntPy (s : String) : Option Int :=
  match s.data with
  | [] => none
  | '-' :: rest =>
      if rest ≠ [] ∧ rest.all Char.isDigit then some (-(digitsToNat rest : Int)) else none
  | '+' :: rest =>
      if rest ≠ [] ∧ rest.all Char.isDigit then some ((digitsToNat rest : Int)) else none
  | c :: rest =>
      if (c :: rest).all Char.isDigit then some ((digitsToNat (c :: rest) : Int)) else none

/-- `buyer = tx.get("in_msg", \x7b\x7d).get("source", "")`. -/
def txBuyer (tx : Tx) : String :=
  match tx.in_msg with
  | some m => m.source
  | none => ""

/-- The raw string fed to `int(...)`:
`tx.get("in_msg", \x7b\x7d).get("value", "0")`. -/
def txValueRaw (tx : Tx) : String :=
  match tx.in_msg with
  | some m => m.value.getD ("0")
  | none => "0"

/-- The inner loop of `parse_nft_purchases` over `out_msgs`: skip messages
with an empty destination, and return the first destination that differs
from both the collection address `c` and the buyer address `b`. -/
def firstNftDest (c b : String) : List OutMsg → Option String
  | [] => none
  | m :: rest =>
      if m.destination = "" then firstNftDest c b rest
      else if m.destination ≠ c ∧ m.destination ≠ b then some m.destination
      else firstNftDest c b rest

/-- The body of `parse_nft_purchases` for one transaction.
`int(in_msg.get("value", "0"))` runs first and raises on a non-numeric
string (`Except.error`); then transactions with zero payment or an empty
buyer are skipped (`Option.none`); otherwise the first qualifying outbound
destination, if any, yields one record with `price = inbound value`. -/
def extractPurchase (c : String) (tx : Tx) : Except Unit (Option Purchase) :=
  let buyer := txBuyer tx
  match parseIntPy (txValueRaw tx) with
  | none => .error ()
  | some price =>
      if price = 0 then .ok none
      else if buyer = "" then .ok none
      else
        match firstNftDest c buyer tx.out_msgs with
        | none => .ok none
        | some d => .ok (some ⟨tx.lt, tx.utime, d, buyer, price⟩)

/-- Equality of `Except` results is decidable componentwise, so that the
outcomes of the extractor can be checked on concrete inputs. -/
instance {ε α : Type} [DecidableEq ε] [DecidableEq α] : DecidableEq (Except ε α) :=
  fun a b =>
    match a, b with
    | .error e, .error f => decidable_of_iff (e = f) (by simp)
    | .error _, .ok _ => isFalse (fun h => Except.noConfusion h)
    | .ok _, .error _ => isFalse (fun h => Except.noConfusion h)
    | .ok x, .ok y => decidable_of_iff (x = y) (by simp)

/-- `parse_nft_purchases(transactions)`: collect the per-transaction records
in input order.  A raised `ValueError` (non-numeric value string) escapes the
Python function, discarding the partial list; the embedding propagates the
error the same way. -/
def parse_nft_purchases (c : String) : List Tx → Except Unit (List Purchase)
  | [] => .ok []
  | tx :: rest =>
      match extractPurchase c tx with
      | .error e => .error e
      | .ok po =>
          match parse_nft_purchases c rest with
          | .error e => .error e
          | .ok ps => .ok (po.toList ++ ps)

/-- Stable insertion of a transaction into an `lt`-sorted list: a new element
goes after the elements with the same `lt`, matching the stability of
`transactions.sort(key=lt)`. -/
def insertByLt (tx : Tx) : List Tx → List Tx
  | [] => [tx]
  | y :: ys => if tx.lt < y.lt then tx :: y :: ys else y :: insertByLt tx ys

/-- `transactions.sort(key=lambda x: int(x.transaction_id.lt))`: stable
ascending sort by logical time. -/
def sortByLt (txs : List Tx) : List Tx :=
  txs.foldl (fun acc tx => insertByLt tx acc) []

/-- `max(int(tx.transaction_id.lt) for tx in api_transactions)` over a
non-empty list (the only way the code calls it); `0` on the empty list. -/
def latestApiLt (txs : List Tx) : Nat :=
  txs.foldl (fun acc tx => max acc tx.lt) 0

/-- `reset_state_if_outdated(api_transactions, current_last_lt)`: if the
stored watermark exceeds the highest fetched position by more than 1000, the
state is reset to that observed maximum; otherwise it is left unchanged. -/
def reset_state_if_outdated (txs : List Tx) (current : Nat) : Nat :=
  match txs with
  | [] => current
  | _ :: _ =>
      let latest := latestApiLt txs
      if latest < current ∧ 1000 < current - latest then latest else current

/-- State of the per-transaction loop inside `nft_polling_loop`:
`hi` is `highest_nft_lt`, `sent` the notifications dispatched so far, and
`aborted` records that an exception escaped `parse_nft_purchases` (caught by
the enclosing per-tick `try`, so the loop body stops here). -/
structure LoopState where
  hi : Nat
  sent : List Purchase
  aborted : Bool
deriving Repr, DecidableEq

/-- The `for tx in transactions:` loop of `nft_polling_loop`: transactions
with `lt <= last_lt` are skipped; a newer transaction is parsed alone; its
purchases (if any) are each notified and `highest_nft_lt` is raised to the
`lt` of the transaction; a `ValueError` from the parse aborts the remainder of
the tick, keeping the notifications already sent. -/
def processTxs (c : String) (w : Nat) : List Tx → Nat → List Purchase → LoopState
  | [], hi, sent => ⟨hi, sent, false⟩
  | tx :: rest, hi, sent =>
      if w < tx.lt then
        match parse_nft_purchases c [tx] with
        | .error _ => ⟨hi, sent, true⟩
        | .ok [] => processTxs c w rest hi sent
        | .ok ps => processTxs c w rest (max hi tx.lt) (sent ++ ps)
      else processTxs c w rest hi sent

/-- Result of one iteration of `nft_polling_loop`: the value of `last_lt`
after the iteration, the notifications dispatched during it, and whether the
iteration was cut short by an exception. -/
structure TickResult where
  watermark : Nat
  notifications : List Purchase
  aborted : Bool
deriving Repr, DecidableEq

/-- The part of a poll iteration after the corruption guard, starting from
the post-guard watermark `w1`: sort the batch ascending, run the
per-transaction loop, and finally execute
`if highest_nft_lt > last_lt: last_lt = highest_nft_lt; save_last_lt(...)`
(skipped when an exception aborted the loop body). -/
def tickCore (c : String) (w1 : Nat) (txs : List Tx) : TickResult :=
  let st := processTxs c w1 (sortByLt txs) w1 []
  ⟨if st.aborted then w1 else if w1 < st.hi then st.hi else w1, st.sent, st.aborted⟩

/-- One iteration of `nft_polling_loop` on a fetched batch `txs` with stored
watermark `w`: an empty fetch only sleeps; otherwise the corruption guard
runs, and then the batch is processed by `tickCore`.  Note that `last_lt`
rises only through `highest_nft_lt`, which is updated only for transactions
that yielded purchases. -/
def nft_polling_tick (c : String) (w : Nat) (txs : List Tx) : TickResult :=
  match txs with
  | [] => ⟨w, [], false⟩
  | _ :: _ => tickCore c (reset_state_if_outdated txs w) txs

/-- The guard of `reset_state_if_outdated`, as a proposition on the fetched
batch and the stored watermark: the batch is non-empty and the stored
watermark exceeds the highest fetched position by more than the slack 1000. -/
abbrev resetCondition (txs : List Tx) (w : Nat) : Prop :=
  txs ≠ [] ∧ latestApiLt txs < w ∧ 1000 < w - latestApiLt txs

/-- Whether `extractPurchase` finishes without raising on this transaction
(Python: the `int(...)` conversion succeeds). -/
def extractSucceeds (c : String) (t : Tx) : Bool :=
  match extractPurchase c t with
  | .ok _ => true
  | .error _ => false

/-- Specification-side description of the notifications one loop pass emits:
for each transaction, in order, the purchase extracted from it when it is
newer than the watermark `w` and the extraction yields a record. -/
def batchNotifs (c : String) (w : Nat) : List Tx → List Purchase
  | [] => []
  | tx :: rest =>
      (if w < tx.lt then
         match extractPurchase c tx with
         | .ok (some p) => [p]
         | _ => []
       else []) ++ batchNotifs c w rest

/-- Modelled from the words of claim C5, for comparison with `firstNftDest`:
the first outbound message whose destination is neither the watched
collection address nor the buyer address, with no requirement that the
destination be non-empty. -/
def claimedFirstNonPartyDest (c b : String) : List OutMsg → Option String
  | [] => none
  | m :: rest =>
      if m.destination ≠ c ∧ m.destination ≠ b then some m.destination
      else claimedFirstNonPartyDest c b rest

/-- What one HTTP exchange of `fetch_transactions` can come back with:
a response with a status code and (for 2xx) a decoded transaction list, a
transport-level failure (`httpx.RequestError`, covering unreachable hosts
and timeouts), or any other exception such as a JSON decode failure. -/
inductive HttpResult where
  | response (status : Nat) (body : List Tx)
  | requestError
  | otherError
deriving Repr, DecidableEq

/-- Status codes `raise_for_status` accepts. -/
def is2xx (s : Nat) : Bool := 200 ≤ s && s < 300

/-- An outcome on which `fetch_transactions` hits one of its `except` arms. -/
def isFetchFailure : HttpResult → Bool
  | .response s _ => !is2xx s
  | .requestError => true
  | .otherError => true

/-- `fetch_transactions`: a 2xx response yields `data.get("transactions", [])`;
`raise_for_status` on a non-2xx response, a `RequestError`, and any other
exception are each caught and turned into the empty list. -/
def fetch_transactions : HttpResult → List Tx
  | .response status body => if is2xx status then body else []
  | .requestError => []
  | .otherError => []

/-- The startup configuration read from the environment: the bot token and
the channel-id override, with `""` for an unset variable (the code tests
both with Python truthiness). -/
structure Config where
  token : String
  groupId : String
deriving Repr, DecidableEq

/-- How `main()` leaves its startup checks: an early `return` on a missing
token, an early `return` on a non-numeric `TELEGRAM_GROUP_ID`, or
proceeding (to auto-detection or the monitoring loops). -/
inductive MainOutcome where
  | missingToken
  | invalidGroupId
  | started
deriving Repr, DecidableEq

/-- The configuration checks at the top of `main()`: an empty token logs an
error and returns; a non-empty `TELEGRAM_GROUP_ID` that `int()` rejects logs
an error and returns; otherwise startup proceeds. -/
def main_startup (cfg : Config) : MainOutcome :=
  if cfg.token = "" then .missingToken
  else if cfg.groupId ≠ "" then
    match parseIntPy cfg.groupId with
    | some _ => .started
    | none => .invalidGroupId
  else .started

/-- The `__main__` block: `exit(1)` fires only when `asyncio.run(main())`
raises an exception other than `KeyboardInterrupt`; a `main()` that returns
(as it does on both configuration errors, via early `return`) falls off the
end of the script with exit status 0. -/
def processExitCode (raised : Bool) : Nat :=
  if raised then 1 else 0

/-- Scenario transaction at position 90: an old purchase-shaped transaction,
below the watermark 100. -/
def txOld90 : Tx := ⟨90, 1000, some ⟨"B0", some ("1000000000")⟩, [⟨"N0"⟩]⟩

/-- Scenario transaction at position 110: a purchase by buyer B1 of NFT N1
for 2 000 000 000 nanotons. -/
def txBuy110 : Tx := ⟨110, 1100, some ⟨"B1", some ("2000000000")⟩, [⟨"N1"⟩]⟩

/-- Scenario transaction at position 120: inbound value 0, not a purchase. -/
def txZero120 : Tx := ⟨120, 1200, some ⟨"B2", some ("0")⟩, [⟨"N2"⟩]⟩

/-- First-run example: a purchase-shaped transaction at position 10. -/
def txBuy10 : Tx := ⟨10, 10, some ⟨"B1", some ("5000000000")⟩, [⟨"N1"⟩]⟩

/-- First-run example: a non-purchase transaction at position 20. -/
def txZero20 : Tx := ⟨20, 20, some ⟨"B2", some ("0")⟩, []⟩

/-- A transaction at position 3000, used against a stored watermark 5000 to
trigger the corruption guard. -/
def txLow3000 : Tx := ⟨3000, 1, some ⟨"B", some ("7")⟩, [⟨"N"⟩]⟩

/-- A purchase-shaped transaction whose first outbound message has an empty
destination and whose second outbound message carries the NFT address. -/
def txEmptyFirstDest : Tx := ⟨7, 8, some ⟨"B", some ("5000000000")⟩, [⟨""⟩, ⟨"N"⟩]⟩

/-- A transaction whose inbound value string is not numeric, making the
`int(...)` conversion in the extractor raise. -/
def txBadValue : Tx := ⟨1, 1, some ⟨"B", some ("abc")⟩, [⟨"N"⟩]⟩

/-- A well-formed purchase-shaped transaction placed after `txBadValue` in a
batch. -/
def txGoodValue : Tx := ⟨2, 2, some ⟨"C", some ("9")⟩, [⟨"M"⟩]⟩

/-! ### Helper lemmas about the embedding -/

theorem mem_insertByLt {a tx : Tx} : ∀ {l : List Tx}, a ∈ insertByLt tx l ↔ a = tx ∨ a ∈ l := by
  intro l
  induction l with
  | nil => simp [insertByLt]
  | cons y ys ih =>
      by_cases h : tx.lt < y.lt
      · simp [insertByLt, h]
      · simp only [insertByLt, if_neg h, List.mem_cons, ih]
        tauto

theorem mem_sortByLt_aux {a : Tx} : ∀ (l : List Tx) (acc : List Tx),
    a ∈ l.foldl (fun acc tx => insertByLt tx acc) acc ↔ a ∈ acc ∨ a ∈ l := by
  intro l
  induction l with
  | nil => intro acc; simp
  | cons tx rest ih =>
      intro acc
      simp only [List.foldl_cons, ih, mem_insertByLt, List.mem_cons]
      tauto

theorem mem_sortByLt {a : Tx} {txs : List Tx} : a ∈ sortByLt txs ↔ a ∈ txs := by
  unfold sortByLt
  rw [mem_sortByLt_aux]
  simp

theorem le_foldl_max_nat : ∀ (l : List Nat) (a : Nat), a ≤ l.foldl max a := by
  intro l
  induction l with
  | nil => intro a; simp
  | cons x xs ih =>
      intro a
      simp only [List.foldl_cons]
      exact le_trans (le_max_left a x) (ih (max a x))

theorem le_foldl_maxLt_acc : ∀ (l : List Tx) (acc : Nat),
    acc ≤ l.foldl (fun a x => max a x.lt) acc := by
  intro l
  induction l with
  | nil => intro acc; simp
  | cons tx rest ih =>
      intro acc
      simp only [List.foldl_cons]
      exact le_trans (le_max_left acc tx.lt) (ih (max acc tx.lt))

theorem lt_le_foldl_maxLt {t : Tx} : ∀ {l : List Tx} (acc : Nat), t ∈ l →
    t.lt ≤ l.foldl (fun a x => max a x.lt) acc := by
  intro l
  induction l with
  | nil => intro acc h; cases h
  | cons tx rest ih =>
      intro acc h
      rcases List.mem_cons.mp h with h | h
      · subst h
        simp only [List.foldl_cons]
        exact le_trans (le_max_right acc t.lt) (le_foldl_maxLt_acc rest (max acc t.lt))
      · simp only [List.foldl_cons]
        exact ih (max acc tx.lt) h

theorem lt_le_latestApiLt {t : Tx} {txs : List Tx} (h : t ∈ txs) : t.lt ≤ latestApiLt txs :=
  lt_le_foldl_maxLt 0 h

theorem firstNftDest_spec {c b : String} : ∀ {outs : List OutMsg} {d : String},
    firstNftDest c b outs = some d → d ≠ "" ∧ d ≠ c ∧ d ≠ b := by
  intro outs
  induction outs with
  | nil => intro d h; simp [firstNftDest] at h
  | cons m rest ih =>
      intro d h
      by_cases h1 : m.destination = ""
      · rw [firstNftDest, if_pos h1] at h
        exact ih h
      · by_cases h2 : m.destination ≠ c ∧ m.destination ≠ b
        · rw [firstNftDest, if_neg h1, if_pos h2] at h
          cases h
          exact ⟨h1, h2.1, h2.2⟩
        · rw [firstNftDest, if_neg h1, if_neg h2] at h
          exact ih h

theorem parse_single (c : String) (tx : Tx) :
    parse_nft_purchases c [tx] =
      match extractPurchase c tx with
      | .error e => .error e
      | .ok po => .ok po.toList := by
  cases h : extractPurchase c tx with
  | error e => simp [parse_nft_purchases, h]
  | ok po => simp [parse_nft_purchases, h]

theorem extract_some_spec {c : String} {tx : Tx} {p : Purchase}
    (h : extractPurchase c tx = .ok (some p)) :
    p.lt = tx.lt ∧ p.timestamp = tx.utime ∧ p.buyer = txBuyer tx ∧ p.buyer ≠ "" ∧
    parseIntPy (txValueRaw tx) = some p.price_nanoton ∧ p.price_nanoton ≠ 0 ∧
    p.nft_address ≠ "" ∧ p.nft_address ≠ c ∧ p.nft_address ≠ p.buyer := by
  simp only [extractPurchase] at h
  cases hv : parseIntPy (txValueRaw tx) with
  | none => rw [hv] at h; exact absurd h (by simp)
  | some price =>
      rw [hv] at h
      simp only at h
      by_cases h0 : price = 0
      · rw [if_pos h0] at h; simp at h
      · rw [if_neg h0] at h
        by_cases hb : txBuyer tx = ""
        · rw [if_pos hb] at h; simp at h
        · rw [if_neg hb] at h
          cases hd : firstNftDest c (txBuyer tx) tx.out_msgs with
          | none => rw [hd] at h; simp at h
          | some d =>
              rw [hd] at h
              simp only [Except.ok.injEq, Option.some.injEq] at h
              obtain ⟨hd1, hd2, hd3⟩ := firstNftDest_spec hd
              subst h
              exact ⟨rfl, rfl, rfl, hb, rfl, h0, hd1, hd2, hd3⟩

theorem parse_mem {c : String} : ∀ {txs : List Tx} {ps : List Purchase} {p : Purchase},
    parse_nft_purchases c txs = .ok ps → p ∈ ps →
    ∃ tx, tx ∈ txs ∧ extractPurchase c tx = .ok (some p) := by
  intro txs
  induction txs with
  | nil =>
      intro ps p h hp
      simp only [parse_nft_purchases, Except.ok.injEq] at h
      subst h
      cases hp
  | cons tx rest ih =>
      intro ps p h hp
      simp only [parse_nft_purchases] at h
      cases he : extractPurchase c tx with
      | error e => rw [he] at h; simp at h
      | ok po =>
          rw [he] at h
          cases hr : parse_nft_purchases c rest with
          | error e => rw [hr] at h; simp at h
          | ok qs =>
              rw [hr] at h
              simp only [Except.ok.injEq] at h
              subst h
              rcases List.mem_append.mp hp with hmem | hmem
              · cases po with
                | none => cases hmem
                | some q =>
                    have : p = q := by
                      simpa [Option.toList] using hmem
                    subst this
                    exact ⟨tx, List.mem_cons_self tx rest, he⟩
              · obtain ⟨t, ht, hext⟩ := ih hr hmem
                exact ⟨t, List.mem_cons_of_mem tx ht, hext⟩

theorem processTxs_skip_all {c : String} {w : Nat} : ∀ {txs : List Tx} (hi : Nat)
    (sent : List Purchase), (∀ t ∈ txs, t.lt ≤ w) →
    processTxs c w txs hi sent = ⟨hi, sent, false⟩ := by
  intro txs
  induction txs with
  | nil => intro hi sent _; rfl
  | cons tx rest ih =>
      intro hi sent h
      have h1 : ¬ w < tx.lt := not_lt.mpr (h tx (List.mem_cons_self tx rest))
      simp only [processTxs, if_neg h1]
      exact ih hi sent (fun t ht => h t (List.mem_cons_of_mem tx ht))

theorem processTxs_ok {c : String} {w : Nat} : ∀ {txs : List Tx} (hi : Nat)
    (sent : List Purchase), (∀ t ∈ txs, extractSucceeds c t = true) →
    processTxs c w txs hi sent =
      ⟨List.foldl max hi ((batchNotifs c w txs).map Purchase.lt),
       sent ++ batchNotifs c w txs, false⟩ := by
  intro txs
  induction txs with
  | nil => intro hi sent _; simp [processTxs, batchNotifs]
  | cons tx rest ih =>
      intro hi sent h
      have hok := h tx (List.mem_cons_self tx rest)
      have hrest : ∀ t ∈ rest, extractSucceeds c t = true :=
        fun t ht => h t (List.mem_cons_of_mem tx ht)
      by_cases hw : w < tx.lt
      · cases he : extractPurchase c tx with
        | error e => simp [extractSucceeds, he] at hok
        | ok po =>
            cases po with
            | none =>
                have hps : parse_nft_purchases c [tx] = .ok [] := by
                  rw [parse_single, he]; rfl
                simp only [processTxs, if_pos hw, hps]
                rw [ih hi sent hrest]
                simp [batchNotifs, hw, he]
            | some p =>
                have hps : parse_nft_purchases c [tx] = .ok [p] := by
                  rw [parse_single, he]; rfl
                simp only [processTxs, if_pos hw, hps]
                rw [ih (max hi tx.lt) (sent ++ [p]) hrest]
                have hlt : p.lt = tx.lt := (extract_some_spec he).1
                simp [batchNotifs, hw, he, hlt]
      · have h1 : ¬ w < tx.lt := hw
        simp only [processTxs, if_neg h1]
        rw [ih hi sent hrest]
        simp [batchNotifs, hw]

theorem processTxs_sent_sub {c : String} {w : Nat} : ∀ {txs : List Tx} {hi : Nat}
    {sent : List Purchase} {p : Purchase},
    p ∈ (processTxs c w txs hi sent).sent →
    p ∈ sent ∨ ∃ tx, tx ∈ txs ∧ w < tx.lt ∧ extractPurchase c tx = .ok (some p) := by
  intro txs
  induction txs with
  | nil => intro hi sent p hp; left; simpa [processTxs] using hp
  | cons tx rest ih =>
      intro hi sent p hp
      by_cases hw : w < tx.lt
      · cases he : extractPurchase c tx with
        | error e =>
            have hps : parse_nft_purchases c [tx] = .error e := by
              rw [parse_single, he]
            simp only [processTxs, if_pos hw, hps] at hp
            left
            exact hp
        | ok po =>
            cases po with
            | none =>
                have hps : parse_nft_purchases c [tx] = .ok [] := by
                  rw [parse_single, he]; rfl
                simp only [processTxs, if_pos hw, hps] at hp
                rcases ih hp with h | ⟨t, ht, h2, h3⟩
                · left; exact h
                · exact Or.inr ⟨t, List.mem_cons_of_mem tx ht, h2, h3⟩
            | some q =>
                have hps : parse_nft_purchases c [tx] = .ok [q] := by
                  rw [parse_single, he]; rfl
                simp only [processTxs, if_pos hw, hps] at hp
                rcases ih hp with h | ⟨t, ht, h2, h3⟩
                · rcases List.mem_append.mp h with h | h
                  · left; exact h
                  · have : p = q := by simpa using h
                    subst this
                    exact Or.inr ⟨tx, List.mem_cons_self tx rest, hw, he⟩
                · exact Or.inr ⟨t, List.mem_cons_of_mem tx ht, h2, h3⟩
      · simp only [processTxs, if_neg hw] at hp
        rcases ih hp with h | ⟨t, ht, h2, h3⟩
        · left; exact h
        · exact Or.inr ⟨t, List.mem_cons_of_mem tx ht, h2, h3⟩

theorem mem_batchNotifs {c : String} {w : Nat} {p : Purchase} : ∀ {l : List Tx} {tx : Tx},
    tx ∈ l → w < tx.lt → extractPurchase c tx = .ok (some p) → p ∈ batchNotifs c w l := by
  intro l
  induction l with
  | nil => intro tx h; cases h
  | cons m rest ih =>
      intro tx hmem hw he
      rcases List.mem_cons.mp hmem with h | h
      · subst h
        simp [batchNotifs, hw, he]
      · exact List.mem_append_right _ (ih h hw he)

theorem tickCore_notifications (c : String) (w1 : Nat) (txs : List Tx) :
    (tickCore c w1 txs).notifications = (processTxs c w1 (sortByLt txs) w1 []).sent := rfl

theorem tickCore_skip_all {c : String} {w1 : Nat} {txs : List Tx}
    (h : ∀ t ∈ sortByLt txs, t.lt ≤ w1) : tickCore c w1 txs = ⟨w1, [], false⟩ := by
  simp only [tickCore]
  rw [processTxs_skip_all w1 [] h]
  simp

theorem tickCore_watermark_ge (c : String) (w1 : Nat) (txs : List Tx) :
    w1 ≤ (tickCore c w1 txs).watermark := by
  simp only [tickCore]
  split_ifs with h1 h2
  · exact le_refl w1
  · exact le_of_lt h2
  · exact le_refl w1

theorem tickCore_ok {c : String} {w1 : Nat} {txs : List Tx}
    (h : ∀ t ∈ txs, extractSucceeds c t = true) :
    tickCore c w1 txs =
      ⟨List.foldl max w1 ((batchNotifs c w1 (sortByLt txs)).map Purchase.lt),
       batchNotifs c w1 (sortByLt txs), false⟩ := by
  have hs : ∀ t ∈ sortByLt txs, extractSucceeds c t = true :=
    fun t ht => h t (mem_sortByLt.mp ht)
  simp only [tickCore]
  rw [processTxs_ok w1 [] hs]
  have hge : w1 ≤ List.foldl max w1 ((batchNotifs c w1 (sortByLt txs)).map Purchase.lt) :=
    le_foldl_max_nat _ _
  by_cases hlt : w1 < List.foldl max w1 ((batchNotifs c w1 (sortByLt txs)).map Purchase.lt)
  · simp [hlt]
  · have heq : List.foldl max w1 ((batchNotifs c w1 (sortByLt txs)).map Purchase.lt) = w1 :=
      le_antisymm (not_lt.mp hlt) hge
    simp [hlt, heq]

theorem reset_eq_of_not {txs : List Tx} {w : Nat} (h : ¬ resetCondition txs w) :
    reset_state_if_outdated txs w = w := by
  cases txs with
  | nil => rfl
  | cons tx rest =>
      have h2 : ¬ (latestApiLt (tx :: rest) < w ∧ 1000 < w - latestApiLt (tx :: rest)) :=
        fun hg => h ⟨List.cons_ne_nil tx rest, hg.1, hg.2⟩
      simp only [reset_state_if_outdated]
      rw [if_neg h2]

theorem reset_eq_of_cond {txs : List Tx} {w : Nat} (h : resetCondition txs w) :
    reset_state_if_outdated txs w = latestApiLt txs := by
  obtain ⟨hne, h1, h2⟩ := h
  cases txs with
  | nil => exact absurd rfl hne
  | cons tx rest =>
      simp only [reset_state_if_outdated]
      rw [if_pos ⟨h1, h2⟩]

theorem nft_polling_tick_cons (c : String) (w : Nat) (tx : Tx) (rest : List Tx) :
    nft_polling_tick c w (tx :: rest) =
      tickCore c (reset_state_if_outdated (tx :: rest) w) (tx :: rest) := rfl

/-! ### Claim theorems -/

/-- C1, counterexample.  The claim says that in the scenario with watermark
100 and fetched positions 90 (old), 110 (a purchase) and 120 (inbound value
0), exactly one notification is dispatched and the watermark becomes 120.
In the code `highest_nft_lt` is updated only when `parse_nft_purchases`
returns purchases, so the tick sends one notification but leaves the
watermark at 110, not 120. -/
theorem C1_counterexample_watermark_110 :
    (nft_polling_tick "COLL" 100 [txOld90, txBuy110, txZero120]).notifications.length = 1 ∧
    (nft_polling_tick "COLL" 100 [txOld90, txBuy110, txZero120]).watermark = 110 ∧
    (110 : Nat) ≠ 120 := by decide

/-- C1, amended.  On a steady-state tick whose fetch is non-empty, whose
corruption guard does not fire and whose transactions all extract without
raising, the watermark after the tick equals the maximum of the old
watermark and the positions of the transactions that yielded a
PurchaseRecord; positions of transactions that yielded no record are not
included, so the watermark of the scenario becomes 110, not 120. -/
theorem C1_watermark_tracks_purchases (c : String) (w : Nat) (txs : List Tx)
    (hne : txs ≠ []) (hnr : ¬ resetCondition txs w)
    (hok : ∀ t ∈ txs, extractSucceeds c t = true) :
    (nft_polling_tick c w txs).watermark =
      List.foldl max w (((nft_polling_tick c w txs).notifications).map Purchase.lt) := by
  cases txs with
  | nil => exact absurd rfl hne
  | cons tx rest =>
      rw [nft_polling_tick_cons, reset_eq_of_not hnr, tickCore_ok hok]

/-- C1, witness for the amended theorem at the scenario input. -/
theorem C1_watermark_tracks_purchases_witness :
    (nft_polling_tick "COLL" 100 [txOld90, txBuy110, txZero120]).watermark =
      List.foldl max 100
        (((nft_polling_tick "COLL" 100 [txOld90, txBuy110, txZero120]).notifications).map
          Purchase.lt) :=
  C1_watermark_tracks_purchases "COLL" 100 [txOld90, txBuy110, txZero120]
    (by decide) (by decide) (by decide)

/-- C2, counterexample.  The claim says that with a loaded watermark of 0
the first tick sends zero notifications and sets the watermark to the
maximum position of the page.  The code has no calibration branch: with
watermark 0 and a page holding a purchase at position 10 and a non-purchase
at position 20, one notification is sent and the watermark becomes 10,
not the maximum observed position 20. -/
theorem C2_counterexample_first_run :
    (nft_polling_tick "COLL" 0 [txBuy10, txZero20]).notifications.length = 1 ∧
    (nft_polling_tick "COLL" 0 [txBuy10, txZero20]).watermark = 10 ∧
    latestApiLt [txBuy10, txZero20] = 20 ∧ (10 : Nat) ≠ 20 := by decide

/-- C2, amended.  There is no first-run calibration: with watermark 0 a tick
behaves like any steady tick, so every purchase-yielding transaction of the
initial page is notified, and the watermark is set to the maximum position
among the purchase-yielding transactions only (0 when there are none). -/
theorem C2_no_calibration (c : String) (txs : List Tx) (tx : Tx) (p : Purchase)
    (hmem : tx ∈ txs) (hpos : 0 < tx.lt)
    (hok : ∀ t ∈ txs, extractSucceeds c t = true)
    (he : extractPurchase c tx = .ok (some p)) :
    p ∈ (nft_polling_tick c 0 txs).notifications ∧
    (nft_polling_tick c 0 txs).watermark =
      List.foldl max 0 (((nft_polling_tick c 0 txs).notifications).map Purchase.lt) := by
  cases txs with
  | nil => cases hmem
  | cons t0 rest =>
      have hnr : ¬ resetCondition (t0 :: rest) 0 := by
        intro hr
        exact absurd hr.2.1 (Nat.not_lt_zero _)
      rw [nft_polling_tick_cons, reset_eq_of_not hnr, tickCore_ok hok]
      exact ⟨mem_batchNotifs (mem_sortByLt.mpr hmem) hpos he, rfl⟩

/-- C2, witness for the amended theorem: the single purchase-shaped
transaction of the first page is notified. -/
theorem C2_no_calibration_witness :
    (⟨10, 10, "N1", "B1", 5000000000⟩ : Purchase) ∈
      (nft_polling_tick "COLL" 0 [txBuy10]).notifications ∧
    (nft_polling_tick "COLL" 0 [txBuy10]).watermark =
      List.foldl max 0 (((nft_polling_tick "COLL" 0 [txBuy10]).notifications).map Purchase.lt) :=
  C2_no_calibration "COLL" [txBuy10] txBuy10 ⟨10, 10, "N1", "B1", 5000000000⟩
    (by decide) (by decide) (by decide) (by decide)

/-- C3, confirmed.  After any tick the watermark is at least the previous
watermark, except when the corruption guard fires (the stored watermark
exceeds the maximum fetched position by more than the slack 1000), in which
case the watermark is set exactly to the maximum position among the
transactions returned by the fetch. -/
theorem C3_monotonic_watermark (c : String) (w : Nat) (txs : List Tx) :
    (¬ resetCondition txs w → w ≤ (nft_polling_tick c w txs).watermark) ∧
    (resetCondition txs w → (nft_polling_tick c w txs).watermark = latestApiLt txs) := by
  constructor
  · intro hnr
    cases txs with
    | nil => exact le_refl w
    | cons tx rest =>
        rw [nft_polling_tick_cons, reset_eq_of_not hnr]
        exact tickCore_watermark_ge c w (tx :: rest)
  · intro hr
    have hne := hr.1
    cases txs with
    | nil => exact absurd rfl hne
    | cons tx rest =>
        rw [nft_polling_tick_cons, reset_eq_of_cond hr]
        have hall : ∀ t ∈ sortByLt (tx :: rest), t.lt ≤ latestApiLt (tx :: rest) :=
          fun t ht => lt_le_latestApiLt (mem_sortByLt.mp ht)
        rw [tickCore_skip_all hall]

/-- C3, witness: a normal tick does not lower the watermark, and a tick on
which the guard fires resets it to the maximum fetched position. -/
theorem C3_monotonic_watermark_witness :
    100 ≤ (nft_polling_tick "COLL" 100 [txBuy110]).watermark ∧
    (nft_polling_tick "COLL" 5000 [txLow3000]).watermark = latestApiLt [txLow3000] :=
  ⟨(C3_monotonic_watermark "COLL" 100 [txBuy110]).1 (by decide),
   (C3_monotonic_watermark "COLL" 5000 [txLow3000]).2 (by decide)⟩

/-- C4, counterexample.  The claim says a tick in which all fetched
transactions have position at most the watermark leaves the watermark
unchanged.  With stored watermark 5000 and a single fetched transaction at
position 3000 the corruption guard fires and the watermark drops to 3000. -/
theorem C4_counterexample_reset_tick :
    txLow3000.lt ≤ 5000 ∧
    (nft_polling_tick "COLL" 5000 [txLow3000]).notifications = [] ∧
    (nft_polling_tick "COLL" 5000 [txLow3000]).watermark = 3000 ∧
    (3000 : Nat) ≠ 5000 := by decide

/-- C4, amended.  Every notification of a tick comes from a transaction
with position strictly above the stored watermark (so transactions at or
below it produce none), and a tick in which all fetched positions are at
most the watermark leaves the watermark unchanged and notifies nothing,
provided the corruption guard does not fire. -/
theorem C4_idempotent_skip (c : String) (w : Nat) (txs : List Tx) :
    (∀ p ∈ (nft_polling_tick c w txs).notifications, w < p.lt) ∧
    ((∀ t ∈ txs, t.lt ≤ w) → ¬ resetCondition txs w →
      (nft_polling_tick c w txs).watermark = w ∧
      (nft_polling_tick c w txs).notifications = []) := by
  constructor
  · intro p hp
    cases txs with
    | nil => simp [nft_polling_tick] at hp
    | cons tx rest =>
        rw [nft_polling_tick_cons] at hp
        by_cases hr : resetCondition (tx :: rest) w
        · rw [reset_eq_of_cond hr] at hp
          have hall : ∀ t ∈ sortByLt (tx :: rest), t.lt ≤ latestApiLt (tx :: rest) :=
            fun t ht => lt_le_latestApiLt (mem_sortByLt.mp ht)
          rw [tickCore_skip_all hall] at hp
          cases hp
        · rw [reset_eq_of_not hr, tickCore_notifications] at hp
          rcases processTxs_sent_sub hp with h | ⟨t, -, hw, he⟩
          · cases h
          · have hlt : p.lt = t.lt := (extract_some_spec he).1
            rw [hlt]
            exact hw
  · intro hall hnr
    cases txs with
    | nil => exact ⟨rfl, rfl⟩
    | cons tx rest =>
        rw [nft_polling_tick_cons, reset_eq_of_not hnr]
        have hs : ∀ t ∈ sortByLt (tx :: rest), t.lt ≤ w :=
          fun t ht => hall t (mem_sortByLt.mp ht)
        rw [tickCore_skip_all hs]
        exact ⟨rfl, rfl⟩

/-- C4, witness for the amended theorem: a tick whose only transaction is
old leaves the watermark at 100 and notifies nothing. -/
theorem C4_idempotent_skip_witness :
    (nft_polling_tick "COLL" 100 [txOld90]).watermark = 100 ∧
    (nft_polling_tick "COLL" 100 [txOld90]).notifications = [] :=
  (C4_idempotent_skip "COLL" 100 [txOld90]).2 (by decide) (by decide)

/-- C5, counterexample.  The claim says the record is taken from the first
outbound message whose destination is neither the collection address nor
the buyer address.  On a transaction whose first outbound message has an
empty destination (which differs from both addresses) followed by one
addressed to N, the claim picks the empty destination while the code skips
it and yields the record for N. -/
theorem C5_counterexample_empty_destination :
    txBuyer txEmptyFirstDest = "B" ∧
    claimedFirstNonPartyDest "COLL" "B" txEmptyFirstDest.out_msgs = some "" ∧
    parse_nft_purchases "COLL" [txEmptyFirstDest] =
      .ok [⟨7, 8, "N", "B", 5000000000⟩] ∧
    ("N" : String) ≠ "" := by decide

/-- C5, amended.  The Extractor yields at most one PurchaseRecord per
transaction, taken from the first outbound message with a NON-EMPTY
destination that is neither the collection address nor the buyer address;
with additionally `N ≠ ""` and `B ≠ ""` the concrete positive example of
the claim holds with price equal to the inbound value, and a transaction
whose inbound value is 0 or whose source is empty yields none. -/
theorem C5_extractor_characterization :
    (∀ (c : String) (tx : Tx) (ps : List Purchase),
        parse_nft_purchases c [tx] = .ok ps → ps.length ≤ 1) ∧
    (∀ (c B N : String) (lt ut : Nat), B ≠ "" → N ≠ "" → N ≠ c → N ≠ B →
        parse_nft_purchases c [⟨lt, ut, some ⟨B, some ("5000000000")⟩, [⟨N⟩]⟩] =
          .ok [⟨lt, ut, N, B, 5000000000⟩]) ∧
    (∀ (c : String) (tx : Tx), parseIntPy (txValueRaw tx) = some 0 →
        parse_nft_purchases c [tx] = .ok []) ∧
    (∀ (c : String) (tx : Tx) (v : Int), txBuyer tx = "" →
        parseIntPy (txValueRaw tx) = some v → parse_nft_purchases c [tx] = .ok []) := by
  refine ⟨?_, ?_, ?_, ?_⟩
  · intro c tx ps h
    rw [parse_single] at h
    cases he : extractPurchase c tx with
    | error e => rw [he] at h; simp at h
    | ok po =>
        rw [he] at h
        simp only [Except.ok.injEq] at h
        subst h
        cases po <;> simp
  · intro c B N lt ut hB hN hNc hNB
    have hval : txValueRaw ⟨lt, ut, some ⟨B, some ("5000000000")⟩, [⟨N⟩]⟩ = "5000000000" := rfl
    have hbuy : txBuyer ⟨lt, ut, some ⟨B, some ("5000000000")⟩, [⟨N⟩]⟩ = B := rfl
    have hv : parseIntPy ("5000000000") = some 5000000000 := by decide
    rw [parse_single]
    simp only [extractPurchase, hval, hbuy, hv]
    rw [if_neg (by decide : ¬ (5000000000 : Int) = 0), if_neg hB]
    have hfd : firstNftDest c B [⟨N⟩] = some N := by
      simp only [firstNftDest]
      rw [if_neg hN, if_pos ⟨hNc, hNB⟩]
    rw [hfd]
    rfl
  · intro c tx hv
    rw [parse_single]
    simp [extractPurchase, hv]
  · intro c tx v hb hv
    rw [parse_single]
    simp only [extractPurchase, hv, hb]
    by_cases h0 : v = 0
    · simp [h0]
    · simp [h0]

/-- C5, witness for the amended theorem: the positive concrete example and
the zero-value example. -/
theorem C5_extractor_characterization_witness :
    parse_nft_purchases "X" [⟨3, 4, some ⟨"B", some ("5000000000")⟩, [⟨"N"⟩]⟩] =
      .ok [⟨3, 4, "N", "B", 5000000000⟩] ∧
    parse_nft_purchases "X" [txZero120] = .ok [] :=
  ⟨C5_extractor_characterization.2.1 "X" "B" "N" 3 4
      (by decide) (by decide) (by decide) (by decide),
   C5_extractor_characterization.2.2.1 "X" txZero120 (by decide)⟩

/-- C6, confirmed.  Every PurchaseRecord produced by the Extractor from a
batch whose inbound value strings denote non-negative integers (the only
values the indexer produces for coin amounts) has positive price, a
non-empty buyer address, and an NFT address differing from both the watched
collection address and the buyer address. -/
theorem C6_record_invariants (c : String) (txs : List Tx) (ps : List Purchase) (p : Purchase)
    (hparse : parse_nft_purchases c txs = .ok ps) (hp : p ∈ ps)
    (hnn : ∀ t ∈ txs, 0 ≤ (parseIntPy (txValueRaw t)).getD 0) :
    0 < p.price_nanoton ∧ p.buyer ≠ "" ∧ p.nft_address ≠ c ∧ p.nft_address ≠ p.buyer := by
  obtain ⟨tx, htx, he⟩ := parse_mem hparse hp
  obtain ⟨-, -, -, hb, hv, hnz, -, hc, hbn⟩ := extract_some_spec he
  have h0 : 0 ≤ p.price_nanoton := by
    have hval := hnn tx htx
    rw [hv] at hval
    simpa using hval
  exact ⟨lt_of_le_of_ne h0 (Ne.symm hnz), hb, hc, hbn⟩

/-- C6, witness at a concrete batch. -/
theorem C6_record_invariants_witness :
    0 < (⟨2, 2, "M", "C", (9 : Int)⟩ : Purchase).price_nanoton ∧
    (⟨2, 2, "M", "C", (9 : Int)⟩ : Purchase).buyer ≠ "" ∧
    (⟨2, 2, "M", "C", (9 : Int)⟩ : Purchase).nft_address ≠ "COLL" ∧
    (⟨2, 2, "M", "C", (9 : Int)⟩ : Purchase).nft_address ≠
      (⟨2, 2, "M", "C", (9 : Int)⟩ : Purchase).buyer :=
  C6_record_invariants "COLL" [txGoodValue] [⟨2, 2, "M", "C", 9⟩] ⟨2, 2, "M", "C", 9⟩
    (by decide) (by decide) (by decide)

/-- C7, counterexample.  The claim says a transaction with a non-numeric
inbound value is skipped and the records of the remaining transactions are
still returned without raising.  In the code `int(...)` raises, the whole
batch is discarded, and the record that `txGoodValue` yields on its own is
lost. -/
theorem C7_counterexample_batch_aborted :
    parse_nft_purchases "COLL" [txBadValue, txGoodValue] = .error () ∧
    parse_nft_purchases "COLL" [txGoodValue] = .ok [⟨2, 2, "M", "C", 9⟩] := by decide

/-- C7, amended.  Missing fields are defaulted benignly: a transaction with
no inbound message at all yields no record and the rest of the batch is
still parsed.  But a present non-numeric inbound value makes `int(...)`
raise, and the error discards the whole batch (the poll loop catches it
per tick). -/
theorem C7_malformed_handling :
    (∀ (c : String) (lt ut : Nat) (outs : List OutMsg) (rest : List Tx),
        parse_nft_purchases c (⟨lt, ut, none, outs⟩ :: rest) = parse_nft_purchases c rest) ∧
    (∀ (c : String) (tx : Tx) (rest : List Tx), parseIntPy (txValueRaw tx) = none →
        parse_nft_purchases c (tx :: rest) = .error ()) := by
  constructor
  · intro c lt ut outs rest
    have he : extractPurchase c ⟨lt, ut, none, outs⟩ = .ok none := by
      simp only [extractPurchase]
      rw [show txValueRaw ⟨lt, ut, none, outs⟩ = "0" from rfl,
        show parseIntPy ("0") = some 0 from by decide]
      simp
    simp only [parse_nft_purchases, he]
    cases h : parse_nft_purchases c rest <;> simp
  · intro c tx rest hv
    have he : extractPurchase c tx = .error () := by
      simp only [extractPurchase, hv]
    simp [parse_nft_purchases, he]

/-- C7, witness for the amended theorem. -/
theorem C7_malformed_handling_witness :
    parse_nft_purchases "COLL" ((⟨5, 6, none, []⟩ : Tx) :: [txGoodValue]) =
      parse_nft_purchases "COLL" [txGoodValue] ∧
    parse_nft_purchases "COLL" [txBadValue] = .error () :=
  ⟨C7_malformed_handling.1 "COLL" 5 6 [] [txGoodValue],
   C7_malformed_handling.2 "COLL" txBadValue [] (by decide)⟩

/-- C8, confirmed.  Every failing HTTP exchange of `fetch_transactions` — a
transport error or timeout (`httpx.RequestError`), a non-2xx response
(`raise_for_status`), or any other exception — is caught and returned to
the caller as the empty transaction list, never propagated. -/
theorem C8_fetch_failure_empty (r : HttpResult) (h : isFetchFailure r = true) :
    fetch_transactions r = [] := by
  cases r with
  | response s b =>
      simp only [isFetchFailure, Bool.not_eq_true'] at h
      simp [fetch_transactions, h]
  | requestError => rfl
  | otherError => rfl

/-- C8, witness at a transport error and at a 500 response. -/
theorem C8_fetch_failure_empty_witness :
    fetch_transactions .requestError = [] ∧
    fetch_transactions (.response 500 [txGoodValue]) = [] :=
  ⟨C8_fetch_failure_empty .requestError (by decide),
   C8_fetch_failure_empty (.response 500 [txGoodValue]) (by decide)⟩

/-- C9, counterexample.  The claim says a missing credential or an invalid
numeric channel id makes the process exit with non-zero status.  The code
logs the error and returns from `main()` on both paths, so nothing raises
and the script falls off the end with exit status 0. -/
theorem C9_counterexample_exit_zero :
    main_startup ⟨"", ""⟩ = .missingToken ∧
    main_startup ⟨"token", "abc"⟩ = .invalidGroupId ∧
    processExitCode false = 0 := by decide

/-- C9, amended.  A missing credential or an invalid numeric channel id
aborts startup (the monitoring loops never start), but the process then
exits with status 0; exit status 1 is produced only when an exception
escapes `main()`. -/
theorem C9_config_error_exit (cfg : Config) :
    (cfg.token = "" → main_startup cfg = .missingToken) ∧
    (cfg.token ≠ "" → cfg.groupId ≠ "" → parseIntPy cfg.groupId = none →
      main_startup cfg = .invalidGroupId) ∧
    processExitCode false = 0 ∧ processExitCode true = 1 := by
  refine ⟨?_, ?_, rfl, rfl⟩
  · intro h
    simp [main_startup, h]
  · intro h1 h2 h3
    simp [main_startup, h1, h2, h3]

/-- C9, witness for the amended theorem. -/
theorem C9_config_error_exit_witness :
    main_startup ⟨"", "123"⟩ = .missingToken ∧
    main_startup ⟨"tok", "12x"⟩ = .invalidGroupId :=
  ⟨(C9_config_error_exit ⟨"", "123"⟩).1 (by decide),
   (C9_config_error_exit ⟨"tok", "12x"⟩).2.1 (by decide) (by decide) (by decide)⟩

/-- C10, confirmed.  The Extractor skips outbound messages whose destination
is empty or missing, so every produced PurchaseRecord has a non-empty
`nft_address`, even though an empty destination would pass the stated
address-inequality heuristic. -/
theorem C10_nft_address_nonempty (c : String) (txs : List Tx) (ps : List Purchase)
    (p : Purchase) (hparse : parse_nft_purchases c txs = .ok ps) (hp : p ∈ ps) :
    p.nft_address ≠ "" := by
  obtain ⟨tx, -, he⟩ := parse_mem hparse hp
  exact (extract_some_spec he).2.2.2.2.2.2.1

/-- C10, witness: the record extracted from `txEmptyFirstDest` has the
non-empty address N. -/
theorem C10_nft_address_nonempty_witness :
    (⟨7, 8, "N", "B", (5000000000 : Int)⟩ : Purchase).nft_address ≠ "" :=
  C10_nft_address_nonempty "COLL" [txEmptyFirstDest] [⟨7, 8, "N", "B", 5000000000⟩]
    ⟨7, 8, "N", "B", 5000000000⟩ (by decide) (by decide)

end NFTBot
